import Mathlib

/-!
Shallow embedding of `src/eightstars/geometry.py` (classes `Point`, `Straight`,
`Star`, exceptions `CoincidentStraights`, `StarError`) over an arbitrary linear
ordered field with a floor, so that the same definitions can be evaluated
exactly on `ℚ` and reasoned about on `ℝ` with the genuine `Real.sin`,
`Real.cos` and `Real.pi`.  Python's `round(x, d)` on exact values is modelled
by round-half-to-even at `d` decimal digits; Python's raised exceptions are
modelled with `Except`.
-/

set_option maxHeartbeats 1000000
set_option maxRecDepth 4000

/-- Decidable equality for `Except`, needed to evaluate raised-exception
results on concrete inputs. -/
instance {E A : Type} [DecidableEq E] [DecidableEq A] : DecidableEq (Except E A) :=
  fun a b =>
  match a, b with
  | .error e, .error e' => decidable_of_iff (e = e') (by simp)
  | .ok x, .ok y => decidable_of_iff (x = y) (by simp)
  | .error _, .ok _ => isFalse (by simp)
  | .ok _, .error _ => isFalse (by simp)

namespace EightStars

variable {K : Type} [LinearOrderedField K] [FloorRing K]

/-- Round to the nearest integer, ties to even: the rounding mode of Python 3's
built-in `round`, applied to exact (rational/real) values. -/
def roundHalfEven (q : K) : ℤ :=
  if q - ⌊q⌋ < 1 / 2 then ⌊q⌋
  else if 1 / 2 < q - ⌊q⌋ then ⌊q⌋ + 1
  else if Even ⌊q⌋ then ⌊q⌋ else ⌊q⌋ + 1

/-- Python's `round(x, decimals)` for a non-negative number of decimal places,
on exact values: round `x * 10^decimals` half-to-even, then scale back. -/
def pyround (decimals : ℕ) (x : K) : K :=
  (roundHalfEven (x * 10 ^ decimals) : K) / 10 ^ decimals

/-- `Point`: a point in cartesian coordinates (class `Point`). -/
structure Point (K : Type) where
  x : K
  y : K
deriving DecidableEq

/-- `Point.__init__`: records the coordinates rounded to `decimals` decimal
places (`self.x = round(x, decimals)`, `self.y = round(y, decimals)`). -/
def mkPoint (decimals : ℕ) (x y : K) : Point K :=
  ⟨pyround decimals x, pyround decimals y⟩

/-- `Point.moved`: a new point shifted by the given distances; the new `Point`
is built with the default `decimals = 5`. -/
def Point.moved (p : Point K) (x_distance y_distance : K) : Point K :=
  mkPoint 5 (p.x + x_distance) (p.y + y_distance)

/-- The `CoincidentStraights` exception raised by `Straight.intersection`. -/
inductive CoincidentStraights where
  | thrown
deriving DecidableEq

/-- `Straight`: either a non-vertical line with slope `a` and intercept `b`
(`self.x is None`), or a vertical line with constant `x`. -/
inductive Straight (K : Type) where
  | slant (a b : K)
  | vert (x : K)
deriving DecidableEq

/-- `Straight.__init__`: from two points `A`, `B`.  When `A.x != B.x` the slope
`a = round((B.y - A.y) / (B.x - A.x), decimals)` and the intercept
`b = round(A.y - a * A.x, decimals)` (note: using the already rounded `a`);
otherwise the vertical line `x = A.x`. -/
def mkStraight (decimals : ℕ) (A B : Point K) : Straight K :=
  if A.x ≠ B.x then
    let a := pyround decimals ((B.y - A.y) / (B.x - A.x))
    .slant a (pyround decimals (A.y - a * A.x))
  else
    .vert A.x

/-- `Straight.intersection`: raises `CoincidentStraights` on identical lines,
returns `None` on distinct parallel lines, otherwise the intersection
`Point(x, y)` built with the default `decimals = 5`. -/
def Straight.intersection :
    Straight K → Straight K → Except CoincidentStraights (Option (Point K))
  | .slant a b, .slant a' b' =>
    if a = a' then
      if b = b' then .error .thrown else .ok none
    else
      let x := (b' - b) / (a - a')
      .ok (some (mkPoint 5 x (a * x + b)))
  | .vert x, .vert x' =>
    if x = x' then .error .thrown else .ok none
  | .vert x, .slant a b => .ok (some (mkPoint 5 x (a * x + b)))
  | .slant a b, .vert x => .ok (some (mkPoint 5 x (a * x + b)))

/-- The exceptions that can escape `Star.__init__`: `AssertionError` from the
two precondition `assert`s (the spec's `InvalidStarConfiguration`), or
`StarError` (the spec's `StarGeometryError`). -/
inductive StarException where
  | assertionError
  | starError
deriving DecidableEq

/-- `Star`: the record produced by a successful `Star.__init__`. -/
structure Star (K : Type) where
  center : Point K
  outer_diameter : K
  first_corner_slope : K
  vertices : List (Point K)
deriving DecidableEq

/-- `list(chain(*zip(as, bs)))`: the interleaving `[a0, b0, a1, b1, ...]`,
truncated at the shorter list (the semantics of `zip`). -/
def interleave {α : Type} (as bs : List α) : List α :=
  (as.zip bs).flatMap fun p => [p.1, p.2]

/-- A Python `for` loop collecting one result per index, aborting at the first
raised exception. -/
def exceptMap {E A : Type} (f : ℕ → Except E A) : List ℕ → Except E (List A)
  | [] => .ok []
  | i :: is =>
    match f i with
    | .error e => .error e
    | .ok a =>
      match exceptMap f is with
      | .error e => .error e
      | .ok l => .ok (a :: l)

/-- Python's `%` on integers with a positive modulus: the non-negative
remainder. -/
def pyMod (a : ℤ) (n : ℕ) : ℕ :=
  (a.emod n).toNat

/-- The `corner_vertices` loop of `Star.__init__`: outer vertex `i` is
`Point(center.x + sin(angle) * R, center.y + cos(angle) * R)` built with the
default `decimals = 5`, where `angle = spacing * i + first_corner_slope`. -/
def starCornerVertices (sin cos : K → K) (center : Point K)
    (outer_radius fcs spacing : K) (corners : ℕ) : List (Point K) :=
  (List.range corners).map fun (i : ℕ) =>
    mkPoint 5 (center.x + sin (spacing * (i : K) + fcs) * outer_radius)
      (center.y + cos (spacing * (i : K) + fcs) * outer_radius)

/-- The `straights` loop of `Star.__init__`: chord `i` joins outer vertex `i`
to outer vertex `(i + style) % corners`, with the default `decimals = 5`. -/
def starChords (cv : List (Point K)) (corners : ℕ) (style : ℤ) :
    List (Straight K) :=
  (List.range corners).map fun i =>
    mkStraight 5 (cv.getD i ⟨0, 0⟩) (cv.getD (pyMod ((i : ℤ) + style) corners) ⟨0, 0⟩)

/-- One iteration of the `inner_vertices` loop: intersect chord `i` with chord
`(i - (style - 1)) % corners`; both a raised `CoincidentStraights` and a `None`
result become `StarError`. -/
def innerStep (st : List (Straight K)) (corners : ℕ) (style : ℤ) (i : ℕ) :
    Except StarException (Point K) :=
  match (st.getD i (.vert 0)).intersection
      (st.getD (pyMod ((i : ℤ) - (style - 1)) corners) (.vert 0)) with
  | .error _ => .error .starError
  | .ok none => .error .starError
  | .ok (some p) => .ok p

/-- The whole `inner_vertices` loop. -/
def starInners (st : List (Straight K)) (corners : ℕ) (style : ℤ) :
    Except StarException (List (Point K)) :=
  exceptMap (innerStep st corners style) (List.range corners)

/-- `Star.__init__`: asserts `corners > 4` and
`0 <= first_corner_slope <= 2 * pi`, rounds `outer_diameter` and
`first_corner_slope` to `decimals` places, builds the outer corner vertices,
the chords and the inner vertices, and interleaves outer and inner vertices.
`sin`, `cos` and `pi` are the trigonometric primitives of `math`. -/
def mkStar (sin cos : K → K) (pi : K) (center : Point K) (outer_diameter : K)
    (first_corner_slope : K) (corners : ℕ) (style : ℤ) (decimals : ℕ) :
    Except StarException (Star K) :=
  if 4 < corners then
    if 0 ≤ first_corner_slope ∧ first_corner_slope ≤ 2 * pi then
      let od := pyround decimals outer_diameter
      let fcs := pyround decimals first_corner_slope
      let spacing := 2 * pi / (corners : K)
      let cv := starCornerVertices sin cos center (od / 2) fcs spacing corners
      match starInners (starChords cv corners style) corners style with
      | .error e => .error e
      | .ok iv => .ok ⟨center, od, fcs, interleave cv iv⟩
    else .error .assertionError
  else .error .assertionError

/-- `Star.get_x_coordinates`. -/
def Star.get_x_coordinates (s : Star K) : List K :=
  s.vertices.map Point.x

/-- `Star.get_y_coordinates`. -/
def Star.get_y_coordinates (s : Star K) : List K :=
  s.vertices.map Point.y

/-! ### Properties of the rounding primitive -/

theorem roundHalfEven_intCast (m : ℤ) : roundHalfEven ((m : K)) = m := by
  unfold roundHalfEven
  rw [Int.floor_intCast]
  rw [if_pos]
  rw [sub_self]
  norm_num

theorem roundHalfEven_eq_of_bounds (q : K) (m : ℤ) (h1 : (m : K) - 1 / 2 < q)
    (h2 : q < (m : K) + 1 / 2) : roundHalfEven q = m := by
  have hub : ⌊q⌋ < m + 1 := by
    rw [Int.floor_lt]
    push_cast
    linarith
  have hlb : m - 1 ≤ ⌊q⌋ := by
    rw [Int.le_floor]
    push_cast
    linarith
  unfold roundHalfEven
  rcases (by omega : ⌊q⌋ = m ∨ ⌊q⌋ = m - 1) with h | h
  · rw [h, if_pos]
    linarith
  · rw [h, if_neg, if_pos]
    · ring
    · push_cast
      linarith
    · push_cast
      linarith

theorem abs_roundHalfEven_sub_le (q : K) : |(roundHalfEven q : K) - q| ≤ 1 / 2 := by
  have hfl : (⌊q⌋ : K) ≤ q := Int.floor_le q
  have hfu : q < (⌊q⌋ : K) + 1 := Int.lt_floor_add_one q
  unfold roundHalfEven
  split_ifs with ha hb hc
  · rw [abs_le]
    constructor <;> linarith
  · push_cast
    rw [abs_le]
    constructor <;> linarith
  · rw [abs_le]
    constructor <;> linarith
  · push_cast
    rw [abs_le]
    constructor <;> linarith

theorem pyround_eq_of_bounds (d : ℕ) (x : K) (m : ℤ)
    (h1 : (m : K) - 1 / 2 < x * 10 ^ d) (h2 : x * 10 ^ d < (m : K) + 1 / 2) :
    pyround d x = (m : K) / 10 ^ d := by
  unfold pyround
  rw [roundHalfEven_eq_of_bounds (x * 10 ^ d) m h1 h2]

theorem abs_pyround_sub_le (d : ℕ) (x : K) :
    |pyround d x - x| ≤ 1 / (2 * 10 ^ d) := by
  have h10 : (0 : K) < 10 ^ d := by positivity
  have h := abs_roundHalfEven_sub_le (x * 10 ^ d)
  unfold pyround
  rw [show (roundHalfEven (x * 10 ^ d) : K) / 10 ^ d - x
      = ((roundHalfEven (x * 10 ^ d) : K) - x * 10 ^ d) / 10 ^ d by
        field_simp
        ring]
  rw [abs_div, abs_of_pos h10, div_le_iff₀ h10]
  calc |(roundHalfEven (x * 10 ^ d) : K) - x * 10 ^ d| ≤ 1 / 2 := h
    _ = 1 / (2 * 10 ^ d) * 10 ^ d := by field_simp

theorem pyround_intCast (d : ℕ) (m : ℤ) :
    pyround d ((m : K) / 10 ^ d) = (m : K) / 10 ^ d := by
  have h10 : (10 : K) ^ d ≠ 0 := by positivity
  unfold pyround
  rw [div_mul_cancel₀ _ h10, roundHalfEven_intCast]

theorem pyround_idem (d : ℕ) (x : K) : pyround d (pyround d x) = pyround d x := by
  have : pyround d x = ((roundHalfEven (x * 10 ^ d) : ℤ) : K) / 10 ^ d := rfl
  rw [this, pyround_intCast]

/-! ### Properties of `exceptMap` (the `inner_vertices` loop skeleton) -/

theorem exceptMap_ok_length {E A : Type} (f : ℕ → Except E A) (l : List ℕ)
    (out : List A) (h : exceptMap f l = .ok out) : out.length = l.length := by
  induction l generalizing out with
  | nil =>
    simp only [exceptMap] at h
    cases h
    rfl
  | cons i is ih =>
    simp only [exceptMap] at h
    cases hf : f i with
    | error e => rw [hf] at h; cases h
    | ok a =>
      rw [hf] at h
      cases hrec : exceptMap f is with
      | error e => rw [hrec] at h; cases h
      | ok t =>
        rw [hrec] at h
        cases h
        simp [ih t hrec]

theorem exceptMap_ok_getD {E A : Type} (f : ℕ → Except E A) (l : List ℕ)
    (out : List A) (a0 : A) (h : exceptMap f l = .ok out) :
    ∀ k, k < l.length → f (l.getD k 0) = .ok (out.getD k a0) := by
  induction l generalizing out with
  | nil => intro k hk; simp at hk
  | cons i is ih =>
    simp only [exceptMap] at h
    cases hf : f i with
    | error e => rw [hf] at h; cases h
    | ok a =>
      rw [hf] at h
      cases hrec : exceptMap f is with
      | error e => rw [hrec] at h; cases h
      | ok t =>
        rw [hrec] at h
        cases h
        intro k hk
        cases k with
        | zero => simpa using hf
        | succ k' =>
          simp only [List.getD_cons_succ]
          exact ih t hrec k' (by simpa using hk)

theorem exceptMap_mem_of_ok {E A : Type} (f : ℕ → Except E A) (l : List ℕ)
    (out : List A) (h : exceptMap f l = .ok out) :
    ∀ a ∈ out, ∃ i ∈ l, f i = .ok a := by
  induction l generalizing out with
  | nil =>
    simp only [exceptMap] at h
    cases h
    simp
  | cons i is ih =>
    simp only [exceptMap] at h
    cases hf : f i with
    | error e => rw [hf] at h; cases h
    | ok a =>
      rw [hf] at h
      cases hrec : exceptMap f is with
      | error e => rw [hrec] at h; cases h
      | ok t =>
        rw [hrec] at h
        cases h
        intro b hb
        rcases List.mem_cons.mp hb with rfl | hb
        · exact ⟨i, List.mem_cons_self i is, hf⟩
        · rcases ih t hrec b hb with ⟨j, hj, hfj⟩
          exact ⟨j, List.mem_cons_of_mem i hj, hfj⟩

theorem exceptMap_error_exists {E A : Type} (f : ℕ → Except E A) (l : List ℕ)
    (e : E) (h : exceptMap f l = .error e) : ∃ i ∈ l, f i = .error e := by
  induction l with
  | nil => simp only [exceptMap] at h; cases h
  | cons i is ih =>
    simp only [exceptMap] at h
    cases hf : f i with
    | error e' =>
      rw [hf] at h
      cases h
      exact ⟨i, List.mem_cons_self i is, hf⟩
    | ok a =>
      rw [hf] at h
      cases hrec : exceptMap f is with
      | error e' =>
        rw [hrec] at h
        cases h
        rcases ih hrec with ⟨j, hj, hfj⟩
        exact ⟨j, List.mem_cons_of_mem i hj, hfj⟩
      | ok t => rw [hrec] at h; cases h

theorem exceptMap_error_of_mem {E A : Type} (f : ℕ → Except E A) (l : List ℕ)
    (i : ℕ) (e0 : E) (hi : i ∈ l) (hf : f i = .error e0)
    (huniq : ∀ j e, f j = .error e → e = e0) : exceptMap f l = .error e0 := by
  induction l with
  | nil => cases hi
  | cons j js ih =>
    simp only [exceptMap]
    cases hfj : f j with
    | error e => rw [huniq j e hfj]
    | ok a =>
      rcases List.mem_cons.mp hi with rfl | hi'
      · rw [hfj] at hf; cases hf
      · rw [ih hi']

/-! ### Properties of `interleave` -/

theorem interleave_cons {α : Type} (a b : α) (as bs : List α) :
    interleave (a :: as) (b :: bs) = a :: b :: interleave as bs := by
  simp [interleave]

theorem interleave_nil_left {α : Type} (bs : List α) :
    interleave ([] : List α) bs = [] := by
  simp [interleave]

theorem interleave_nil_right {α : Type} (as : List α) :
    interleave as ([] : List α) = [] := by
  cases as <;> simp [interleave]

theorem interleave_length {α : Type} (as bs : List α)
    (h : as.length = bs.length) : (interleave as bs).length = 2 * as.length := by
  induction as generalizing bs with
  | nil => simp [interleave_nil_left]
  | cons a as ih =>
    cases bs with
    | nil => simp at h
    | cons b bs =>
      rw [interleave_cons]
      simp only [List.length_cons] at h ⊢
      rw [ih bs (by omega)]
      omega

theorem interleave_getD_even {α : Type} (as bs : List α) (d : α) (m : ℕ)
    (h : as.length = bs.length) (hm : m < as.length) :
    (interleave as bs).getD (2 * m) d = as.getD m d := by
  induction as generalizing bs m with
  | nil => simp at hm
  | cons a as ih =>
    cases bs with
    | nil => simp at h
    | cons b bs =>
      rw [interleave_cons]
      cases m with
      | zero => simp
      | succ m' =>
        rw [show 2 * (m' + 1) = (2 * m') + 1 + 1 by ring]
        simp only [List.getD_cons_succ]
        exact ih bs m' (by simpa using h) (by simpa using hm)

theorem interleave_getD_odd {α : Type} (as bs : List α) (d : α) (m : ℕ)
    (h : as.length = bs.length) (hm : m < as.length) :
    (interleave as bs).getD (2 * m + 1) d = bs.getD m d := by
  induction as generalizing bs m with
  | nil => simp at hm
  | cons a as ih =>
    cases bs with
    | nil => simp at h
    | cons b bs =>
      rw [interleave_cons]
      cases m with
      | zero => simp
      | succ m' =>
        rw [show 2 * (m' + 1) + 1 = (2 * m' + 1) + 1 + 1 by ring]
        simp only [List.getD_cons_succ]
        exact ih bs m' (by simpa using h) (by simpa using hm)

theorem interleave_map {α β : Type} (g : α → β) (as bs : List α) :
    interleave (as.map g) (bs.map g) = (interleave as bs).map g := by
  induction as generalizing bs with
  | nil => simp [interleave_nil_left]
  | cons a as ih =>
    cases bs with
    | nil => simp [interleave_nil_right]
    | cons b bs =>
      simp only [List.map_cons, interleave_cons]
      rw [ih bs]

/-! ### Structure of a successful `Star.__init__` -/

theorem range_map_getD {α : Type} (f : ℕ → α) (n m : ℕ) (d : α) (h : m < n) :
    ((List.range n).map f).getD m d = f m := by
  rw [List.getD_eq_getElem?_getD, List.getElem?_map, List.getElem?_range h]
  rfl

theorem starCornerVertices_length (sin cos : K → K) (center : Point K)
    (r fcs spacing : K) (corners : ℕ) :
    (starCornerVertices sin cos center r fcs spacing corners).length = corners := by
  simp only [starCornerVertices, List.length_map, List.length_range]

theorem innerStep_error_eq (st : List (Straight K)) (corners : ℕ) (style : ℤ)
    (i : ℕ) (e : StarException) (h : innerStep st corners style i = .error e) :
    e = .starError := by
  unfold innerStep at h
  rcases hint : (st.getD i (.vert 0)).intersection
      (st.getD (pyMod ((i : ℤ) - (style - 1)) corners) (.vert 0)) with he | hp
  · rw [hint] at h
    cases h
    rfl
  · rw [hint] at h
    cases hp with
    | none => cases h; rfl
    | some p => cases h

theorem starInners_error_eq (st : List (Straight K)) (corners : ℕ) (style : ℤ)
    (e : StarException) (h : starInners st corners style = .error e) :
    e = .starError := by
  rcases exceptMap_error_exists _ _ _ h with ⟨i, _, hi⟩
  exact innerStep_error_eq st corners style i e hi

theorem mkStar_ok {sin cos : K → K} {pi : K} {center : Point K} {od fcs : K}
    {corners : ℕ} {style : ℤ} {d : ℕ} {s : Star K}
    (h : mkStar sin cos pi center od fcs corners style d = .ok s) :
    4 < corners ∧ 0 ≤ fcs ∧ fcs ≤ 2 * pi ∧
    ∃ iv, starInners (starChords (starCornerVertices sin cos center
        (pyround d od / 2) (pyround d fcs) (2 * pi / (corners : K)) corners)
        corners style) corners style = .ok iv ∧
      s = ⟨center, pyround d od, pyround d fcs,
        interleave (starCornerVertices sin cos center (pyround d od / 2)
          (pyround d fcs) (2 * pi / (corners : K)) corners) iv⟩ := by
  unfold mkStar at h
  split_ifs at h with h1 h2
  dsimp only at h
  refine ⟨h1, h2.1, h2.2, ?_⟩
  rcases hst : starInners (starChords (starCornerVertices sin cos center
      (pyround d od / 2) (pyround d fcs) (2 * pi / (corners : K)) corners)
      corners style) corners style with e | iv
  · rw [hst] at h
    cases h
  · rw [hst] at h
    cases h
    exact ⟨iv, rfl, rfl⟩

/-! ### Claim theorems on `Straight.intersection` and `Point` -/

/-- Claim C2: `Star` construction raises the precondition failure
(`InvalidStarConfiguration`, realised as the `assert`s' `AssertionError`)
exactly when `corners ≤ 4`, or `first_corner_slope < 0`, or
`first_corner_slope > 2 * pi`; when both preconditions hold no precondition
failure is raised (any failure is then the distinct `StarError`). -/
theorem star_assertion_iff (sin cos : K → K) (pi : K) (center : Point K)
    (od fcs : K) (corners : ℕ) (style : ℤ) (d : ℕ) :
    mkStar sin cos pi center od fcs corners style d = .error .assertionError ↔
      corners ≤ 4 ∨ fcs < 0 ∨ 2 * pi < fcs := by
  unfold mkStar
  split_ifs with h1 h2
  · dsimp only
    constructor
    · intro h
      exfalso
      rcases hst : starInners (starChords (starCornerVertices sin cos center
          (pyround d od / 2) (pyround d fcs) (2 * pi / (corners : K)) corners)
          corners style) corners style with e | iv
      · rw [hst] at h
        cases h
        cases starInners_error_eq _ _ _ _ hst
      · rw [hst] at h
        cases h
    · intro h
      rcases h with h | h | h
      · omega
      · exact absurd h2.1 (by linarith)
      · exact absurd h2.2 (by linarith)
  · constructor
    · intro _
      rcases not_and_or.mp h2 with h | h
      · exact Or.inr (Or.inl (lt_of_not_le h))
      · exact Or.inr (Or.inr (lt_of_not_le h))
    · intro _
      rfl
  · constructor
    · intro _
      exact Or.inl (by omega)
    · intro _
      rfl

/-- Claim C3: `Straight.intersection` raises `CoincidentStraights` (the spec's
`CoincidentLines`) exactly when the two lines are identical (same slope and
intercept, or same vertical `x`), and returns `None` exactly when they are
distinct parallels (same slope, different intercepts, or both vertical with
different `x`). -/
theorem intersection_coincident_and_parallel_iff (s o : Straight K) :
    (s.intersection o = .error .thrown ↔
      ((∃ a b, s = .slant a b ∧ o = .slant a b) ∨
        (∃ x, s = .vert x ∧ o = .vert x))) ∧
    (s.intersection o = .ok none ↔
      ((∃ a b b', s = .slant a b ∧ o = .slant a b' ∧ b ≠ b') ∨
        (∃ x x', s = .vert x ∧ o = .vert x' ∧ x ≠ x'))) := by
  cases s with
  | slant a b =>
    cases o with
    | slant a' b' =>
      by_cases ha : a = a'
      · subst ha
        by_cases hb : b = b'
        · subst hb
          constructor <;> simp [Straight.intersection]
        · constructor <;> simp [Straight.intersection, hb, Ne.symm hb]
          exact ⟨a, b, ⟨rfl, rfl⟩, b', ⟨rfl, rfl⟩, hb⟩
      · constructor <;> simp [Straight.intersection, ha, Ne.symm ha]
    | vert x' =>
      constructor <;> simp [Straight.intersection]
  | vert x =>
    cases o with
    | slant a' b' =>
      constructor <;> simp [Straight.intersection]
    | vert x' =>
      by_cases hx : x = x'
      · subst hx
        constructor <;> simp [Straight.intersection]
      · constructor <;> simp [Straight.intersection, hx, Ne.symm hx]

/-- Claim C5: two non-vertical lines with different slopes intersect at
`x = (b2 - b1) / (a1 - a2)`, `y = a1 * x + b1`, the result being a `Point`
built with the default rounding. -/
theorem intersection_slant_slant (a1 b1 a2 b2 : K) (h : a1 ≠ a2) :
    (Straight.slant a1 b1).intersection (.slant a2 b2) =
      .ok (some (mkPoint 5 ((b2 - b1) / (a1 - a2))
        (a1 * ((b2 - b1) / (a1 - a2)) + b1))) := by
  simp only [Straight.intersection]
  rw [if_neg h]

/-- Witness for claim C5 at the lines `y = x` and `y = 2x + 1`. -/
theorem intersection_slant_slant_witness :
    (1 : ℚ) ≠ 2 ∧
    (Straight.slant (1 : ℚ) 0).intersection (.slant 2 1) =
      .ok (some (mkPoint 5 ((1 - 0) / (1 - 2)) (1 * ((1 - 0) / (1 - 2)) + 0))) :=
  ⟨by norm_num, intersection_slant_slant 1 0 2 1 (by norm_num)⟩

/-- Claim C6: when exactly one line is vertical, its constant `x` is
substituted into the other line's equation; in particular `x = 3` meets
`y = 2x + 1` at `(3, 7)`. -/
theorem intersection_one_vertical :
    (∀ x a b : K,
      (Straight.vert x).intersection (.slant a b) =
        .ok (some (mkPoint 5 x (a * x + b))) ∧
      (Straight.slant a b).intersection (.vert x) =
        .ok (some (mkPoint 5 x (a * x + b)))) ∧
    (Straight.vert (3 : ℚ)).intersection (.slant 2 1) = .ok (some ⟨3, 7⟩) :=
  ⟨fun _ _ _ => ⟨rfl, rfl⟩, by with_unfolding_all rfl⟩

/-- Claim C7: `Point(x, y, decimals)` stores exactly `round(x, decimals)` and
`round(y, decimals)` (each within half an ulp of the input), and
`Point(1.000004, 2.000006, decimals=5)` stores `(1.0, 2.00001)`. -/
theorem point_stores_rounded :
    (∀ (d : ℕ) (x y : K),
      mkPoint d x y = ⟨pyround d x, pyround d y⟩ ∧
      |pyround d x - x| ≤ 1 / (2 * 10 ^ d) ∧
      |pyround d y - y| ≤ 1 / (2 * 10 ^ d)) ∧
    mkPoint 5 (1.000004 : ℚ) 2.000006 = ⟨1, 2.00001⟩ :=
  ⟨fun d x y => ⟨rfl, abs_pyround_sub_le d x, abs_pyround_sub_le d y⟩,
    by with_unfolding_all rfl⟩

/-! ### Claims C1, C4, C10, C8 -/

/-- Claim C1: a successfully constructed `Star` has `2 * corners` vertices,
the exact interleaving of the `corners` outer corner vertices with the
`corners` inner vertices, in index order. -/
theorem star_vertices_interleaved {sin cos : K → K} {pi : K} {center : Point K}
    {od fcs : K} {corners : ℕ} {style : ℤ} {d : ℕ} {s : Star K}
    (h : mkStar sin cos pi center od fcs corners style d = .ok s) :
    s.vertices.length = 2 * corners ∧
    ∃ iv, starInners (starChords (starCornerVertices sin cos center
        (pyround d od / 2) (pyround d fcs) (2 * pi / (corners : K)) corners)
        corners style) corners style = .ok iv ∧
      iv.length = corners ∧
      ∀ m, m < corners →
        s.vertices.getD (2 * m) ⟨0, 0⟩ =
          (starCornerVertices sin cos center (pyround d od / 2) (pyround d fcs)
            (2 * pi / (corners : K)) corners).getD m ⟨0, 0⟩ ∧
        s.vertices.getD (2 * m + 1) ⟨0, 0⟩ = iv.getD m ⟨0, 0⟩ := by
  obtain ⟨h4, h0, h2pi, iv, hiv, hs⟩ := mkStar_ok h
  have hivlen : iv.length = corners := by
    have hlen := exceptMap_ok_length _ _ _ hiv
    rwa [List.length_range] at hlen
  have hcvlen := starCornerVertices_length sin cos center (pyround d od / 2)
    (pyround d fcs) (2 * pi / (corners : K)) corners
  have hll : (starCornerVertices sin cos center (pyround d od / 2)
      (pyround d fcs) (2 * pi / (corners : K)) corners).length = iv.length := by
    rw [hcvlen, hivlen]
  subst hs
  refine ⟨?_, iv, hiv, hivlen, ?_⟩
  · show (interleave _ iv).length = 2 * corners
    rw [interleave_length _ _ hll, hcvlen]
  · intro m hm
    constructor
    · exact interleave_getD_even _ _ _ _ hll (by rw [hcvlen]; exact hm)
    · exact interleave_getD_odd _ _ _ _ hll (by rw [hcvlen]; exact hm)

/-- The five-cornered star used as a concrete witness: the trigonometric
primitives are replaced by stub functions placing the outer corners on a
parabola, which keeps every chord intersection well defined. -/
def pStar : Star ℚ :=
  ((mkStar (fun t => t) (fun t => t * t) 10 ⟨0, 0⟩ 2 0 5 2 5).toOption).getD
    ⟨⟨0, 0⟩, 0, 0, []⟩

/-- Witness for claim C1: a concrete successful construction with 10 vertices. -/
theorem star_vertices_interleaved_witness :
    mkStar (K := ℚ) (fun t => t) (fun t => t * t) 10 ⟨0, 0⟩ 2 0 5 2 5 = .ok pStar ∧
    pStar.vertices.length = 2 * 5 := by
  have h : mkStar (K := ℚ) (fun t => t) (fun t => t * t) 10 ⟨0, 0⟩ 2 0 5 2 5
      = .ok pStar := by
    with_unfolding_all rfl
  exact ⟨h, (star_vertices_interleaved h).1⟩

/-- Claim C4: if any inner-vertex intersection raises `CoincidentStraights` or
returns `None`, the whole construction fails with `StarError` — no `Star`
value is produced. -/
theorem star_geometry_error {sin cos : K → K} {pi : K} {center : Point K}
    {od fcs : K} {corners : ℕ} {style : ℤ} {d : ℕ}
    (h4 : 4 < corners) (h0 : 0 ≤ fcs) (h2 : fcs ≤ 2 * pi)
    (hfail : ∃ i, i < corners ∧
      (((starChords (starCornerVertices sin cos center (pyround d od / 2)
            (pyround d fcs) (2 * pi / (corners : K)) corners) corners
            style).getD i (.vert 0)).intersection
          ((starChords (starCornerVertices sin cos center (pyround d od / 2)
            (pyround d fcs) (2 * pi / (corners : K)) corners) corners
            style).getD (pyMod ((i : ℤ) - (style - 1)) corners) (.vert 0))
          = .error .thrown ∨
        ((starChords (starCornerVertices sin cos center (pyround d od / 2)
            (pyround d fcs) (2 * pi / (corners : K)) corners) corners
            style).getD i (.vert 0)).intersection
          ((starChords (starCornerVertices sin cos center (pyround d od / 2)
            (pyround d fcs) (2 * pi / (corners : K)) corners) corners
            style).getD (pyMod ((i : ℤ) - (style - 1)) corners) (.vert 0))
          = .ok none)) :
    mkStar sin cos pi center od fcs corners style d = .error .starError := by
  obtain ⟨i, hi, hcase⟩ := hfail
  set st := starChords (starCornerVertices sin cos center (pyround d od / 2)
    (pyround d fcs) (2 * pi / (corners : K)) corners) corners style with hstdef
  have hstep : innerStep st corners style i = .error .starError := by
    unfold innerStep
    rcases hcase with hc | hc <;> rw [hc]
  have hinn : starInners st corners style = .error .starError :=
    exceptMap_error_of_mem _ _ i _ (List.mem_range.mpr hi) hstep
      (fun j e hj => innerStep_error_eq st corners style j e hj)
  unfold mkStar
  rw [if_pos h4, if_pos ⟨h0, h2⟩]
  dsimp only
  rw [← hstdef, hinn]

/-- Witness for claim C4: with stub trigonometric functions that send every
corner to the center, all chords coincide and construction fails. -/
theorem star_geometry_error_witness :
    (∃ i, i < 5 ∧
      (((starChords (starCornerVertices (K := ℚ) (fun _ => 0) (fun _ => 0)
            ⟨0, 0⟩ (pyround 5 2 / 2) (pyround 5 0) (2 * 10 / ((5 : ℕ) : ℚ)) 5) 5
            2).getD i (.vert 0)).intersection
          ((starChords (starCornerVertices (K := ℚ) (fun _ => 0) (fun _ => 0)
            ⟨0, 0⟩ (pyround 5 2 / 2) (pyround 5 0) (2 * 10 / ((5 : ℕ) : ℚ)) 5) 5
            2).getD (pyMod ((i : ℤ) - (2 - 1)) 5) (.vert 0))
          = .error .thrown ∨
        ((starChords (starCornerVertices (K := ℚ) (fun _ => 0) (fun _ => 0)
            ⟨0, 0⟩ (pyround 5 2 / 2) (pyround 5 0) (2 * 10 / ((5 : ℕ) : ℚ)) 5) 5
            2).getD i (.vert 0)).intersection
          ((starChords (starCornerVertices (K := ℚ) (fun _ => 0) (fun _ => 0)
            ⟨0, 0⟩ (pyround 5 2 / 2) (pyround 5 0) (2 * 10 / ((5 : ℕ) : ℚ)) 5) 5
            2).getD (pyMod ((i : ℤ) - (2 - 1)) 5) (.vert 0))
          = .ok none)) ∧
    mkStar (K := ℚ) (fun _ => 0) (fun _ => 0) 10 ⟨0, 0⟩ 2 0 5 2 5
      = .error .starError := by
  constructor
  · exact ⟨0, by norm_num, Or.inl (by with_unfolding_all rfl)⟩
  · exact star_geometry_error (by norm_num) le_rfl (by norm_num)
      ⟨0, by norm_num, Or.inl (by with_unfolding_all rfl)⟩

/-- Any member of an interleaving comes from one of the two lists. -/
theorem interleave_mem {α : Type} (as bs : List α) (p : α)
    (h : p ∈ interleave as bs) : p ∈ as ∨ p ∈ bs := by
  induction as generalizing bs with
  | nil =>
    rw [interleave_nil_left] at h
    cases h
  | cons a as ih =>
    cases bs with
    | nil =>
      rw [interleave_nil_right] at h
      cases h
    | cons b bs =>
      rw [interleave_cons] at h
      rcases List.mem_cons.mp h with rfl | h
      · exact Or.inl (List.mem_cons_self _ _)
      · rcases List.mem_cons.mp h with rfl | h
        · exact Or.inr (List.mem_cons_self _ _)
        · rcases ih bs h with hc | hc
          · exact Or.inl (List.mem_cons_of_mem _ hc)
          · exact Or.inr (List.mem_cons_of_mem _ hc)

/-- A point returned by `Straight.intersection` is always a `Point` built with
the default `decimals = 5`. -/
theorem intersection_ok_some {s o : Straight K} {p : Point K}
    (h : s.intersection o = .ok (some p)) : ∃ x y, p = mkPoint 5 x y := by
  cases s with
  | slant a b =>
    cases o with
    | slant a' b' =>
      by_cases ha : a = a'
      · by_cases hb : b = b' <;> simp [Straight.intersection, ha, hb] at h
      · simp [Straight.intersection, ha] at h
        exact ⟨_, _, h.symm⟩
    | vert x =>
      simp [Straight.intersection] at h
      exact ⟨_, _, h.symm⟩
  | vert x =>
    cases o with
    | slant a' b' =>
      simp [Straight.intersection] at h
      exact ⟨_, _, h.symm⟩
    | vert x' =>
      by_cases hx : x = x' <;> simp [Straight.intersection, hx] at h

/-- A point produced by one iteration of the `inner_vertices` loop is a
`Point` built with the default `decimals = 5`. -/
theorem innerStep_ok_shape {st : List (Straight K)} {corners : ℕ} {style : ℤ}
    {i : ℕ} {p : Point K} (h : innerStep st corners style i = .ok p) :
    ∃ x y, p = mkPoint 5 x y := by
  unfold innerStep at h
  rcases hint : (st.getD i (.vert 0)).intersection
      (st.getD (pyMod ((i : ℤ) - (style - 1)) corners) (.vert 0)) with he | hop
  · rw [hint] at h
    cases h
  · rw [hint] at h
    cases hop with
    | none => cases h
    | some q =>
      cases h
      exact intersection_ok_some hint

/-- Claim C10: `Point.moved` and every `Point` produced inside `Star`
construction round to the default `5` decimal places: for any `decimals`
argument `d`, only `outer_diameter` and `first_corner_slope` are rounded with
`d`, and every vertex coordinate is a fixed point of rounding to 5 places. -/
theorem star_rounding_always_default :
    (∀ (p : Point K) (dx dy : K),
      pyround 5 ((p.moved dx dy).x) = (p.moved dx dy).x ∧
      pyround 5 ((p.moved dx dy).y) = (p.moved dx dy).y) ∧
    (∀ (sin cos : K → K) (pi : K) (center : Point K) (od fcs : K)
      (corners : ℕ) (style : ℤ) (d : ℕ) (s : Star K),
      mkStar sin cos pi center od fcs corners style d = .ok s →
      s.outer_diameter = pyround d od ∧
      s.first_corner_slope = pyround d fcs ∧
      ∀ p ∈ s.vertices, pyround 5 p.x = p.x ∧ pyround 5 p.y = p.y) := by
  constructor
  · intro p dx dy
    exact ⟨pyround_idem 5 _, pyround_idem 5 _⟩
  · intro sin cos pi center od fcs corners style d s h
    obtain ⟨h4, h0, h2pi, iv, hiv, hs⟩ := mkStar_ok h
    subst hs
    refine ⟨rfl, rfl, ?_⟩
    intro p hp
    rcases interleave_mem _ _ _ hp with hcv | hiv'
    · unfold starCornerVertices at hcv
      rcases List.mem_map.mp hcv with ⟨i, _, rfl⟩
      exact ⟨pyround_idem 5 _, pyround_idem 5 _⟩
    · rcases exceptMap_mem_of_ok _ _ _ hiv p hiv' with ⟨i, _, hstep⟩
      rcases innerStep_ok_shape hstep with ⟨x, y, rfl⟩
      exact ⟨pyround_idem 5 _, pyround_idem 5 _⟩

/-- The witness star for claim C10, built with a non-default `decimals = 7`. -/
def pStar7 : Star ℚ :=
  ((mkStar (fun t => t) (fun t => t * t) 10 ⟨0, 0⟩ 2 0 5 2 7).toOption).getD
    ⟨⟨0, 0⟩, 0, 0, []⟩

/-- Witness for claim C10 at a concrete star built with `decimals = 7`. -/
theorem star_rounding_always_default_witness :
    (mkStar (K := ℚ) (fun t => t) (fun t => t * t) 10 ⟨0, 0⟩ 2 0 5 2 7
      = .ok pStar7) ∧
    pStar7.outer_diameter = pyround 7 2 ∧
    pStar7.first_corner_slope = pyround 7 0 ∧
    ∀ p ∈ pStar7.vertices, pyround 5 p.x = p.x ∧ pyround 5 p.y = p.y := by
  have h : mkStar (K := ℚ) (fun t => t) (fun t => t * t) 10 ⟨0, 0⟩ 2 0 5 2 7
      = .ok pStar7 := by
    with_unfolding_all rfl
  exact ⟨h, star_rounding_always_default.2 _ _ _ _ _ _ _ _ _ _ h⟩

/-- Counterexample to claim C8 as stated: `A = (0, 0)` and `B = (3, 1)` are
distinct, but rounding the slope `1/3` to 5 decimal places makes the two
intercepts differ (`0` versus `0.00001`), so intersecting `Straight(A, B)`
with `Straight(B, A)` returns `None` (distinct parallels) instead of raising
`CoincidentStraights`. -/
theorem straight_roundtrip_counterexample :
    ((⟨0, 0⟩ : Point ℚ) ≠ ⟨3, 1⟩) ∧
    (mkStraight 5 (⟨0, 0⟩ : Point ℚ) ⟨3, 1⟩).intersection
      (mkStraight 5 ⟨3, 1⟩ ⟨0, 0⟩) = .ok none := by
  constructor
  · with_unfolding_all decide
  · have h1 : mkStraight 5 (⟨0, 0⟩ : Point ℚ) ⟨3, 1⟩
        = .slant (33333 / 100000) 0 := by
      rw [mkStraight, if_pos (by norm_num)]
      dsimp only
      simp only [Straight.slant.injEq]
      constructor
      · with_unfolding_all rfl
      · with_unfolding_all rfl
    have h2 : mkStraight 5 (⟨3, 1⟩ : Point ℚ) ⟨0, 0⟩
        = .slant (33333 / 100000) (1 / 100000) := by
      rw [mkStraight, if_pos (by norm_num)]
      dsimp only
      simp only [Straight.slant.injEq]
      constructor
      · with_unfolding_all rfl
      · with_unfolding_all rfl
    rw [h1, h2]
    simp only [Straight.intersection]
    rw [if_pos trivial]
    rw [if_neg (show ¬((0 : ℚ) = 1 / 100000) by norm_num)]

/-- Claim C8 amended: for distinct points `A`, `B` whose shared x-coordinate
makes both lines vertical, or whose slope is exact at 5 decimal places (so
rounding does not perturb it), intersecting `Straight(A, B)` with
`Straight(B, A)` raises `CoincidentStraights`. -/
theorem straight_roundtrip_coincident (A B : Point K) (_hne : A ≠ B)
    (hexact : A.x = B.x ∨
      pyround 5 ((B.y - A.y) / (B.x - A.x)) = (B.y - A.y) / (B.x - A.x)) :
    (mkStraight 5 A B).intersection (mkStraight 5 B A) = .error .thrown := by
  by_cases hx : A.x = B.x
  · have h1 : mkStraight 5 A B = .vert A.x := by
      rw [mkStraight, if_neg (by simp [hx])]
    have h2 : mkStraight 5 B A = .vert B.x := by
      rw [mkStraight, if_neg (by simp [hx])]
    rw [h1, h2]
    simp [Straight.intersection, hx]
  · have hsl : pyround 5 ((B.y - A.y) / (B.x - A.x)) = (B.y - A.y) / (B.x - A.x) := by
      rcases hexact with h | h
      · exact absurd h hx
      · exact h
    have hBA : (A.y - B.y) / (A.x - B.x) = (B.y - A.y) / (B.x - A.x) := by
      rw [← neg_sub B.y A.y, ← neg_sub B.x A.x, neg_div_neg_eq]
    have h1 : mkStraight 5 A B =
        .slant (pyround 5 ((B.y - A.y) / (B.x - A.x)))
          (pyround 5 (A.y - pyround 5 ((B.y - A.y) / (B.x - A.x)) * A.x)) := by
      rw [mkStraight, if_pos hx]
    have h2 : mkStraight 5 B A =
        .slant (pyround 5 ((B.y - A.y) / (B.x - A.x)))
          (pyround 5 (B.y - pyround 5 ((B.y - A.y) / (B.x - A.x)) * B.x)) := by
      rw [mkStraight, if_pos (fun hc => hx hc.symm)]
      rw [hBA]
    have hbeq : A.y - pyround 5 ((B.y - A.y) / (B.x - A.x)) * A.x =
        B.y - pyround 5 ((B.y - A.y) / (B.x - A.x)) * B.x := by
      rw [hsl]
      have hden : B.x - A.x ≠ 0 := sub_ne_zero.mpr (fun hc => hx hc.symm)
      have hmul : (B.y - A.y) / (B.x - A.x) * (B.x - A.x) = B.y - A.y :=
        div_mul_cancel₀ _ hden
      rw [mul_sub] at hmul
      linarith
    rw [h1, h2, hbeq]
    simp [Straight.intersection]

/-- Witness for the amended claim C8 at `A = (0, 0)`, `B = (1, 1)`, whose
slope `1` is exact at 5 decimal places. -/
theorem straight_roundtrip_coincident_witness :
    ((⟨0, 0⟩ : Point ℚ) ≠ ⟨1, 1⟩) ∧
    (pyround 5 (((1 : ℚ) - 0) / (1 - 0)) = (1 - 0) / (1 - 0)) ∧
    (mkStraight 5 (⟨0, 0⟩ : Point ℚ) ⟨1, 1⟩).intersection
      (mkStraight 5 ⟨1, 1⟩ ⟨0, 0⟩) = .error .thrown := by
  refine ⟨by with_unfolding_all decide, by with_unfolding_all rfl, ?_⟩
  exact straight_roundtrip_coincident ⟨0, 0⟩ ⟨1, 1⟩
    (by with_unfolding_all decide) (Or.inr (by with_unfolding_all rfl))

/-! ### Transport of the construction along the cast from rationals to reals

Once the corner vertices are the casts of exact rationals, the remaining
stages of the construction (chords, intersections, interleaving) commute with
the cast, so that they can be evaluated exactly on `ℚ`. -/

/-- Componentwise cast of a rational point to a real point. -/
def pointCast (p : Point ℚ) : Point ℝ :=
  ⟨(p.x : ℝ), (p.y : ℝ)⟩

/-- Componentwise cast of a rational line to a real line. -/
def straightCast : Straight ℚ → Straight ℝ
  | .slant a b => .slant (a : ℝ) (b : ℝ)
  | .vert x => .vert (x : ℝ)

theorem roundHalfEven_ratCast (q : ℚ) :
    roundHalfEven ((q : ℝ)) = roundHalfEven q := by
  unfold roundHalfEven
  rw [Rat.floor_cast]
  have hc : ((q : ℝ) - ((⌊q⌋ : ℤ) : ℝ)) = (((q - (⌊q⌋ : ℤ) : ℚ)) : ℝ) := by
    push_cast
    ring
  have hhalf : ((1 : ℝ) / 2) = (((1 / 2 : ℚ)) : ℝ) := by
    norm_num
  have h1 : ((q : ℝ) - ((⌊q⌋ : ℤ) : ℝ) < 1 / 2) ↔ (q - (⌊q⌋ : ℤ) < 1 / 2) := by
    rw [hc, hhalf]
    exact Rat.cast_lt
  have h2 : ((1 : ℝ) / 2 < (q : ℝ) - ((⌊q⌋ : ℤ) : ℝ)) ↔
      ((1 : ℚ) / 2 < q - (⌊q⌋ : ℤ)) := by
    rw [hc, hhalf]
    exact Rat.cast_lt
  simp only [h1, h2]

theorem pyround_ratCast (d : ℕ) (q : ℚ) :
    pyround d ((q : ℝ)) = ((pyround d q : ℚ) : ℝ) := by
  unfold pyround
  rw [show ((q : ℝ) * 10 ^ d) = (((q * 10 ^ d : ℚ) : ℝ)) by push_cast; ring,
    roundHalfEven_ratCast]
  push_cast
  ring

theorem mkPoint_ratCast (d : ℕ) (x y : ℚ) :
    mkPoint d ((x : ℝ)) ((y : ℝ)) = pointCast (mkPoint d x y) := by
  unfold mkPoint pointCast
  rw [pyround_ratCast, pyround_ratCast]

theorem mkStraight_ratCast (d : ℕ) (A B : Point ℚ) :
    mkStraight d (pointCast A) (pointCast B) = straightCast (mkStraight d A B) := by
  by_cases hx : A.x = B.x
  · have h1 : mkStraight d A B = .vert A.x := by
      rw [mkStraight, if_neg (by simp [hx])]
    have h2 : mkStraight d (pointCast A) (pointCast B) = .vert ((A.x : ℝ)) := by
      rw [mkStraight, if_neg (by simp [pointCast, hx])]
      simp [pointCast]
    rw [h1, h2]
    simp only [straightCast, pointCast]
  · have hxR : (pointCast A).x ≠ (pointCast B).x := by
      simp only [pointCast]
      exact_mod_cast hx
    rw [mkStraight, if_pos hxR, mkStraight, if_pos hx]
    dsimp only
    show Straight.slant _ _ = straightCast (.slant _ _)
    simp only [straightCast, pointCast, Straight.slant.injEq]
    constructor
    · rw [show ((B.y : ℝ) - (A.y : ℝ)) / ((B.x : ℝ) - (A.x : ℝ))
          = (((B.y - A.y) / (B.x - A.x) : ℚ) : ℝ) by push_cast; ring]
      rw [pyround_ratCast]
    · rw [show ((B.y : ℝ) - (A.y : ℝ)) / ((B.x : ℝ) - (A.x : ℝ))
          = (((B.y - A.y) / (B.x - A.x) : ℚ) : ℝ) by push_cast; ring]
      rw [pyround_ratCast]
      rw [show (A.y : ℝ) - ((pyround d ((B.y - A.y) / (B.x - A.x)) : ℚ) : ℝ) * (A.x : ℝ)
          = (((A.y - pyround d ((B.y - A.y) / (B.x - A.x)) * A.x : ℚ)) : ℝ) by
            push_cast; ring]
      rw [pyround_ratCast]

theorem intersection_ratCast (s o : Straight ℚ) :
    (straightCast s).intersection (straightCast o) =
      (s.intersection o).map (Option.map pointCast) := by
  cases s with
  | slant a b =>
    cases o with
    | slant a' b' =>
      by_cases ha : a = a'
      · subst ha
        by_cases hb : b = b'
        · subst hb
          simp [straightCast, Straight.intersection, Except.map]
        · have hbR : ((b : ℝ)) ≠ ((b' : ℝ)) := by exact_mod_cast hb
          simp [straightCast, Straight.intersection, hb, hbR, Except.map]
      · have haR : ((a : ℝ)) ≠ ((a' : ℝ)) := by exact_mod_cast ha
        simp only [straightCast, Straight.intersection, if_neg ha, if_neg haR,
          Except.map, Option.map]
        rw [show ((b' : ℝ) - (b : ℝ)) / ((a : ℝ) - (a' : ℝ))
            = (((b' - b) / (a - a') : ℚ) : ℝ) by push_cast; ring]
        rw [show (a : ℝ) * (((b' - b) / (a - a') : ℚ) : ℝ) + (b : ℝ)
            = ((a * ((b' - b) / (a - a')) + b : ℚ) : ℝ) by push_cast; ring]
        rw [mkPoint_ratCast]
    | vert x =>
      simp only [straightCast, Straight.intersection, Except.map, Option.map]
      rw [show (a : ℝ) * (x : ℝ) + (b : ℝ) = ((a * x + b : ℚ) : ℝ) by
        push_cast; ring]
      rw [mkPoint_ratCast]
  | vert x =>
    cases o with
    | slant a b =>
      simp only [straightCast, Straight.intersection, Except.map, Option.map]
      rw [show (a : ℝ) * (x : ℝ) + (b : ℝ) = ((a * x + b : ℚ) : ℝ) by
        push_cast; ring]
      rw [mkPoint_ratCast]
    | vert x' =>
      by_cases hx : x = x'
      · subst hx
        simp [straightCast, Straight.intersection, Except.map]
      · have hxR : ((x : ℝ)) ≠ ((x' : ℝ)) := by exact_mod_cast hx
        simp [straightCast, Straight.intersection, hx, hxR, Except.map]

theorem getD_map_pointCast (l : List (Point ℚ)) (i : ℕ) :
    (l.map pointCast).getD i ⟨0, 0⟩ = pointCast (l.getD i ⟨0, 0⟩) := by
  induction l generalizing i with
  | nil =>
    simp [pointCast]
  | cons p t ih =>
    cases i with
    | zero => simp
    | succ j => simpa using ih j

theorem getD_map_straightCast (l : List (Straight ℚ)) (i : ℕ) :
    (l.map straightCast).getD i (.vert 0) = straightCast (l.getD i (.vert 0)) := by
  induction l generalizing i with
  | nil =>
    simp [straightCast]
  | cons p t ih =>
    cases i with
    | zero => simp
    | succ j => simpa using ih j

theorem starChords_ratCast (cv : List (Point ℚ)) (n : ℕ) (sty : ℤ) :
    starChords (cv.map pointCast) n sty = (starChords cv n sty).map straightCast := by
  unfold starChords
  rw [List.map_map]
  refine List.map_congr_left ?_
  intro i _
  show mkStraight 5 _ _ = straightCast (mkStraight 5 _ _)
  rw [getD_map_pointCast, getD_map_pointCast, mkStraight_ratCast]

theorem innerStep_ratCast (st : List (Straight ℚ)) (n : ℕ) (sty : ℤ) (i : ℕ) :
    innerStep (st.map straightCast) n sty i = (innerStep st n sty i).map pointCast := by
  unfold innerStep
  rw [getD_map_straightCast, getD_map_straightCast, intersection_ratCast]
  rcases (st.getD i (.vert 0)).intersection
      (st.getD (pyMod ((i : ℤ) - (sty - 1)) n) (.vert 0)) with e | op
  · rfl
  · cases op with
    | none => rfl
    | some p => rfl

theorem exceptMap_map {E A B : Type} (g : A → B) (f : ℕ → Except E A)
    (l : List ℕ) :
    exceptMap (fun i => (f i).map g) l = (exceptMap f l).map (List.map g) := by
  induction l with
  | nil => rfl
  | cons i is ih =>
    rw [show exceptMap (fun i => (f i).map g) (i :: is)
        = match (f i).map g with
          | .error e => .error e
          | .ok a =>
            match exceptMap (fun i => (f i).map g) is with
            | .error e => .error e
            | .ok l => .ok (a :: l) from rfl]
    rw [show exceptMap f (i :: is)
        = match f i with
          | .error e => .error e
          | .ok a =>
            match exceptMap f is with
            | .error e => .error e
            | .ok l => .ok (a :: l) from rfl]
    rw [ih]
    rcases hf : f i with e | a
    · rfl
    · rcases hrec : exceptMap f is with e | t <;> rfl

theorem starInners_ratCast (st : List (Straight ℚ)) (n : ℕ) (sty : ℤ) :
    starInners (st.map straightCast) n sty =
      (starInners st n sty).map (List.map pointCast) := by
  unfold starInners
  rw [show (innerStep (st.map straightCast) n sty)
      = fun i => (innerStep st n sty i).map pointCast from
        funext (innerStep_ratCast st n sty)]
  exact exceptMap_map pointCast (innerStep st n sty) (List.range n)

/-! ### Rotation of a star by one corner spacing (claim C9) -/

theorem abs_sin_sub_sin_le (a b : ℝ) : |Real.sin a - Real.sin b| ≤ |a - b| := by
  rw [Real.sin_sub_sin, abs_mul, abs_mul]
  have h1 : |Real.sin ((a - b) / 2)| ≤ |(a - b) / 2| := Real.abs_sin_le_abs
  have h2 : |Real.cos ((a + b) / 2)| ≤ 1 := Real.abs_cos_le_one _
  calc |(2 : ℝ)| * |Real.sin ((a - b) / 2)| * |Real.cos ((a + b) / 2)|
      ≤ |(2 : ℝ)| * |(a - b) / 2| * 1 := by
        apply mul_le_mul _ h2 (abs_nonneg _) (by positivity)
        exact mul_le_mul_of_nonneg_left h1 (abs_nonneg _)
    _ = |a - b| := by
        rw [abs_div]
        norm_num
        ring

theorem abs_cos_sub_cos_le (a b : ℝ) : |Real.cos a - Real.cos b| ≤ |a - b| := by
  rw [Real.cos_sub_cos, abs_mul, abs_mul]
  have h1 : |Real.sin ((a - b) / 2)| ≤ |(a - b) / 2| := Real.abs_sin_le_abs
  have h2 : |Real.sin ((a + b) / 2)| ≤ 1 := Real.abs_sin_le_one _
  calc |(-2 : ℝ)| * |Real.sin ((a + b) / 2)| * |Real.sin ((a - b) / 2)|
      ≤ |(-2 : ℝ)| * 1 * |(a - b) / 2| := by
        apply mul_le_mul _ h1 (abs_nonneg _) (by positivity)
        exact mul_le_mul_of_nonneg_left h2 (abs_nonneg _)
    _ = |a - b| := by
        rw [abs_div]
        norm_num
        ring

theorem pyround5_diff_bound (u v : ℝ) :
    |pyround 5 u - pyround 5 v| ≤ 1 / 100000 + |u - v| := by
  have h1 := abs_pyround_sub_le (K := ℝ) 5 u
  have h2 := abs_pyround_sub_le (K := ℝ) 5 v
  have hval : (1 : ℝ) / (2 * 10 ^ (5 : ℕ)) = 1 / 200000 := by norm_num
  rw [hval] at h1 h2
  have h2' : |v - pyround 5 v| ≤ 1 / 200000 := by
    rw [abs_sub_comm]
    exact h2
  have hsplit : pyround 5 u - pyround 5 v
      = (pyround 5 u - u) + ((u - v) + (v - pyround 5 v)) := by ring
  rw [hsplit]
  refine le_trans (abs_add _ _) ?_
  refine le_trans (add_le_add_left (abs_add _ _) _) ?_
  linarith

theorem corner_point_close (cx cy R A2 A1 : ℝ)
    (h : |A2 - A1| ≤ 1 / 100000 ∨ |A2 - (A1 + 2 * Real.pi)| ≤ 1 / 100000) :
    |(mkPoint 5 (cx + Real.sin A2 * R) (cy + Real.cos A2 * R)).x -
        (mkPoint 5 (cx + Real.sin A1 * R) (cy + Real.cos A1 * R)).x| ≤
      (1 + |R|) / 100000 ∧
    |(mkPoint 5 (cx + Real.sin A2 * R) (cy + Real.cos A2 * R)).y -
        (mkPoint 5 (cx + Real.sin A1 * R) (cy + Real.cos A1 * R)).y| ≤
      (1 + |R|) / 100000 := by
  have hs : |Real.sin A2 - Real.sin A1| ≤ 1 / 100000 := by
    rcases h with h | h
    · exact le_trans (abs_sin_sub_sin_le _ _) h
    · calc |Real.sin A2 - Real.sin A1|
          = |Real.sin A2 - Real.sin (A1 + 2 * Real.pi)| := by
            rw [Real.sin_add_two_pi]
        _ ≤ |A2 - (A1 + 2 * Real.pi)| := abs_sin_sub_sin_le _ _
        _ ≤ 1 / 100000 := h
  have hc : |Real.cos A2 - Real.cos A1| ≤ 1 / 100000 := by
    rcases h with h | h
    · exact le_trans (abs_cos_sub_cos_le _ _) h
    · calc |Real.cos A2 - Real.cos A1|
          = |Real.cos A2 - Real.cos (A1 + 2 * Real.pi)| := by
            rw [Real.cos_add_two_pi]
        _ ≤ |A2 - (A1 + 2 * Real.pi)| := abs_cos_sub_cos_le _ _
        _ ≤ 1 / 100000 := h
  constructor
  · show |pyround 5 (cx + Real.sin A2 * R) - pyround 5 (cx + Real.sin A1 * R)| ≤ _
    refine le_trans (pyround5_diff_bound _ _) ?_
    rw [show (cx + Real.sin A2 * R) - (cx + Real.sin A1 * R)
        = (Real.sin A2 - Real.sin A1) * R by ring, abs_mul]
    have hmul : |Real.sin A2 - Real.sin A1| * |R| ≤ (1 / 100000) * |R| :=
      mul_le_mul_of_nonneg_right hs (abs_nonneg R)
    rw [show (1 + |R|) / 100000 = 1 / 100000 + (1 / 100000) * |R| by ring]
    linarith
  · show |pyround 5 (cy + Real.cos A2 * R) - pyround 5 (cy + Real.cos A1 * R)| ≤ _
    refine le_trans (pyround5_diff_bound _ _) ?_
    rw [show (cy + Real.cos A2 * R) - (cy + Real.cos A1 * R)
        = (Real.cos A2 - Real.cos A1) * R by ring, abs_mul]
    have hmul : |Real.cos A2 - Real.cos A1| * |R| ≤ (1 / 100000) * |R| :=
      mul_le_mul_of_nonneg_right hc (abs_nonneg R)
    rw [show (1 + |R|) / 100000 = 1 / 100000 + (1 / 100000) * |R| by ring]
    linarith

/-- Claim C9, amended: rotating the star by one corner spacing shifts the
vertex list by two positions in the direction OPPOSITE to the one in the
claim: for every outer-vertex index `2 * m`, the rotated star's vertex
`2 * m` matches the original star's vertex `(2 * m + 2) % (2 * corners)`
within the rounding tolerance `(1 + outer_radius) * 10 ^ (-5)` on each
coordinate. -/
theorem star_rotation_shifted {center : Point ℝ} {od f : ℝ} {n : ℕ}
    {s1 s2 : Star ℝ}
    (h1 : mkStar Real.sin Real.cos Real.pi center od f n 2 5 = .ok s1)
    (h2 : mkStar Real.sin Real.cos Real.pi center od
      (f + 2 * Real.pi / (n : ℝ)) n 2 5 = .ok s2)
    (m : ℕ) (hm : m < n) :
    |(s2.vertices.getD (2 * m) ⟨0, 0⟩).x -
        (s1.vertices.getD ((2 * m + 2) % (2 * n)) ⟨0, 0⟩).x| ≤
      (1 + |pyround 5 od| / 2) / 100000 ∧
    |(s2.vertices.getD (2 * m) ⟨0, 0⟩).y -
        (s1.vertices.getD ((2 * m + 2) % (2 * n)) ⟨0, 0⟩).y| ≤
      (1 + |pyround 5 od| / 2) / 100000 := by
  obtain ⟨h4, -, -, iv1, hiv1, hs1⟩ := mkStar_ok h1
  obtain ⟨-, -, -, iv2, hiv2, hs2⟩ := mkStar_ok h2
  have hiv1len : iv1.length = n := by
    have h := exceptMap_ok_length _ _ _ hiv1
    rwa [List.length_range] at h
  have hiv2len : iv2.length = n := by
    have h := exceptMap_ok_length _ _ _ hiv2
    rwa [List.length_range] at h
  set R := pyround 5 od / 2 with hR
  set sp := 2 * Real.pi / (n : ℝ) with hsp
  set f1 := pyround 5 f with hf1
  set f2 := pyround 5 (f + 2 * Real.pi / (n : ℝ)) with hf2
  have hcv1len := starCornerVertices_length Real.sin Real.cos center R f1 sp n
  have hcv2len := starCornerVertices_length Real.sin Real.cos center R f2 sp n
  have hv2 : s2.vertices.getD (2 * m) ⟨0, 0⟩
      = mkPoint 5 (center.x + Real.sin (sp * (m : ℝ) + f2) * R)
          (center.y + Real.cos (sp * (m : ℝ) + f2) * R) := by
    rw [hs2]
    show (interleave _ iv2).getD (2 * m) _ = _
    rw [interleave_getD_even _ _ _ _ (by rw [hcv2len, hiv2len])
      (by rw [hcv2len]; exact hm)]
    unfold starCornerVertices
    rw [range_map_getD _ _ _ _ hm]
  have hδ : |f2 - f1 - sp| ≤ 1 / 100000 := by
    have hval : (1 : ℝ) / (2 * 10 ^ (5 : ℕ)) = 1 / 200000 := by norm_num
    have e1 : |f2 - (f + sp)| ≤ 1 / 200000 := by
      rw [hf2, hsp]
      rw [← hval]
      exact abs_pyround_sub_le (K := ℝ) 5 _
    have e2 : |f1 - f| ≤ 1 / 200000 := by
      rw [hf1, ← hval]
      exact abs_pyround_sub_le (K := ℝ) 5 _
    have e2' : |f - f1| ≤ 1 / 200000 := by
      rw [abs_sub_comm]
      exact e2
    have hsplit : f2 - f1 - sp = (f2 - (f + sp)) + (f - f1) := by ring
    rw [hsplit]
    refine le_trans (abs_add _ _) ?_
    linarith
  have habs : (1 + |pyround 5 od| / 2) / 100000 = (1 + |R|) / 100000 := by
    rw [hR, abs_div]
    norm_num
  rw [habs]
  by_cases hm1 : m + 1 < n
  · have hidx : (2 * m + 2) % (2 * n) = 2 * (m + 1) := Nat.mod_eq_of_lt (by omega)
    have hv1 : s1.vertices.getD ((2 * m + 2) % (2 * n)) ⟨0, 0⟩
        = mkPoint 5 (center.x + Real.sin (sp * ((m + 1 : ℕ) : ℝ) + f1) * R)
            (center.y + Real.cos (sp * ((m + 1 : ℕ) : ℝ) + f1) * R) := by
      rw [hidx, hs1]
      show (interleave _ iv1).getD (2 * (m + 1)) _ = _
      rw [interleave_getD_even _ _ _ _ (by rw [hcv1len, hiv1len])
        (by rw [hcv1len]; exact hm1)]
      unfold starCornerVertices
      rw [range_map_getD _ _ _ _ hm1]
    rw [hv2, hv1]
    apply corner_point_close
    left
    rw [show (sp * (m : ℝ) + f2) - (sp * ((m + 1 : ℕ) : ℝ) + f1)
        = f2 - f1 - sp by push_cast; ring]
    exact hδ
  · have hmn : m + 1 = n := by omega
    have hidx : (2 * m + 2) % (2 * n) = 0 := by
      rw [show 2 * m + 2 = 2 * n by omega, Nat.mod_self]
    have hv1 : s1.vertices.getD ((2 * m + 2) % (2 * n)) ⟨0, 0⟩
        = mkPoint 5 (center.x + Real.sin (sp * ((0 : ℕ) : ℝ) + f1) * R)
            (center.y + Real.cos (sp * ((0 : ℕ) : ℝ) + f1) * R) := by
      rw [hidx, hs1]
      show (interleave _ iv1).getD 0 _ = _
      rw [show (0 : ℕ) = 2 * 0 from rfl,
        interleave_getD_even _ _ _ _ (by rw [hcv1len, hiv1len])
          (by rw [hcv1len]; omega)]
      unfold starCornerVertices
      rw [range_map_getD _ _ _ _ (by omega : 0 < n)]
    rw [hv2, hv1]
    apply corner_point_close
    right
    have hn0 : ((n : ℝ)) ≠ 0 := Nat.cast_ne_zero.mpr (by omega)
    have hsp_n : sp * (n : ℝ) = 2 * Real.pi := by
      rw [hsp]
      field_simp
    have hcast : ((m : ℝ)) = (n : ℝ) - 1 := by
      have hc : ((m + 1 : ℕ) : ℝ) = ((n : ℕ) : ℝ) := by exact_mod_cast hmn
      push_cast at hc
      linarith
    have hang : (sp * (m : ℝ) + f2) - ((sp * ((0 : ℕ) : ℝ) + f1) + 2 * Real.pi)
        = f2 - f1 - sp := by
      rw [hcast]
      push_cast
      linear_combination hsp_n
    rw [hang]
    exact hδ

/-! ### A concrete hexagram over the reals

The two concrete six-cornered stars used for claim C9: one with
`first_corner_slope = 0` and one rotated by one corner spacing `2 * pi / 6`.
The rounded corner coordinates are obtained from interval bounds on `sqrt 3`
and `pi`; the rest of the construction is transported to exact rational
arithmetic. -/

theorem sqrt3_gt : (1.7320508 : ℝ) < Real.sqrt 3 :=
  (Real.lt_sqrt (by norm_num)).mpr (by norm_num)

theorem sqrt3_lt : Real.sqrt 3 < 1.7320509 :=
  (Real.sqrt_lt' (by norm_num)).mpr (by norm_num)

theorem pyround5_eq_target (x t : ℝ) (m : ℤ) (ht : (m : ℝ) / 100000 = t)
    (h1 : (m : ℝ) - 1 / 2 < x * 100000) (h2 : x * 100000 < (m : ℝ) + 1 / 2) :
    pyround 5 x = t := by
  rw [← ht]
  have h := pyround_eq_of_bounds (K := ℝ) 5 x m
    (by rw [show ((10 : ℝ) ^ (5 : ℕ)) = 100000 by norm_num]; exact h1)
    (by rw [show ((10 : ℝ) ^ (5 : ℕ)) = 100000 by norm_num]; exact h2)
  rw [h]
  norm_num

theorem sin_two_pi_div_three : Real.sin (2 * Real.pi / 3) = Real.sqrt 3 / 2 := by
  rw [show (2 * Real.pi / 3 : ℝ) = Real.pi - Real.pi / 3 by ring,
    Real.sin_pi_sub, Real.sin_pi_div_three]

theorem cos_two_pi_div_three : Real.cos (2 * Real.pi / 3) = -(1 / 2) := by
  rw [show (2 * Real.pi / 3 : ℝ) = Real.pi - Real.pi / 3 by ring,
    Real.cos_pi_sub, Real.cos_pi_div_three]

theorem sin_four_pi_div_three :
    Real.sin (4 * Real.pi / 3) = -(Real.sqrt 3 / 2) := by
  rw [show (4 * Real.pi / 3 : ℝ) = Real.pi + Real.pi / 3 by ring, Real.sin_add,
    Real.sin_pi, Real.cos_pi, Real.sin_pi_div_three]
  ring

theorem cos_four_pi_div_three : Real.cos (4 * Real.pi / 3) = -(1 / 2) := by
  rw [show (4 * Real.pi / 3 : ℝ) = Real.pi + Real.pi / 3 by ring, Real.cos_add,
    Real.sin_pi, Real.cos_pi, Real.cos_pi_div_three]
  ring

theorem sin_five_pi_div_three :
    Real.sin (5 * Real.pi / 3) = -(Real.sqrt 3 / 2) := by
  rw [show (5 * Real.pi / 3 : ℝ) = -(Real.pi / 3) + 2 * Real.pi by ring,
    Real.sin_add_two_pi, Real.sin_neg, Real.sin_pi_div_three]

theorem cos_five_pi_div_three : Real.cos (5 * Real.pi / 3) = 1 / 2 := by
  rw [show (5 * Real.pi / 3 : ℝ) = -(Real.pi / 3) + 2 * Real.pi by ring,
    Real.cos_add_two_pi, Real.cos_neg, Real.cos_pi_div_three]

/-- The rounded corner vertices of the hexagram with `first_corner_slope = 0`,
as exact rationals. -/
def hexCv1Q : List (Point ℚ) :=
  [⟨0, 5⟩, ⟨433013 / 100000, 5 / 2⟩, ⟨433013 / 100000, -(5 / 2)⟩,
   ⟨0, -5⟩, ⟨-(433013 / 100000), -(5 / 2)⟩, ⟨-(433013 / 100000), 5 / 2⟩]

theorem hexCv1_eq :
    starCornerVertices Real.sin Real.cos ⟨0, 0⟩ ((10 : ℝ) / 2) 0
      (2 * Real.pi / 6) 6 = hexCv1Q.map pointCast := by
  unfold starCornerVertices hexCv1Q
  rw [show List.range 6 = [0, 1, 2, 3, 4, 5] from rfl]
  simp only [List.map_cons, List.map_nil, List.cons.injEq, and_true]
  norm_num [pointCast, mkPoint, Point.mk.injEq]
  have e1 : (2 * Real.pi / 6 : ℝ) = Real.pi / 3 := by ring
  have e2 : (2 * Real.pi / 6 * 2 : ℝ) = 2 * Real.pi / 3 := by ring
  have e3 : (2 * Real.pi / 6 * 3 : ℝ) = Real.pi := by ring
  have e4 : (2 * Real.pi / 6 * 4 : ℝ) = 4 * Real.pi / 3 := by ring
  have e5 : (2 * Real.pi / 6 * 5 : ℝ) = 5 * Real.pi / 3 := by ring
  refine ⟨⟨?_, ?_⟩, ⟨?_, ?_⟩, ⟨?_, ?_⟩, ⟨?_, ?_⟩, ⟨?_, ?_⟩, ?_, ?_⟩
  · exact pyround5_eq_target _ _ 0 (by norm_num) (by norm_num) (by norm_num)
  · exact pyround5_eq_target _ _ 500000 (by norm_num) (by norm_num) (by norm_num)
  · rw [e1, Real.sin_pi_div_three]
    exact pyround5_eq_target _ _ 433013 (by norm_num)
      (by nlinarith [sqrt3_gt]) (by nlinarith [sqrt3_lt])
  · rw [e1, Real.cos_pi_div_three]
    exact pyround5_eq_target _ _ 250000 (by norm_num) (by norm_num) (by norm_num)
  · rw [e2, sin_two_pi_div_three]
    exact pyround5_eq_target _ _ 433013 (by norm_num)
      (by nlinarith [sqrt3_gt]) (by nlinarith [sqrt3_lt])
  · rw [e2, cos_two_pi_div_three]
    exact pyround5_eq_target _ _ (-250000) (by norm_num) (by norm_num)
      (by norm_num)
  · rw [e3, Real.sin_pi]
    exact pyround5_eq_target _ _ 0 (by norm_num) (by norm_num) (by norm_num)
  · rw [e3, Real.cos_pi]
    exact pyround5_eq_target _ _ (-500000) (by norm_num) (by norm_num)
      (by norm_num)
  · rw [e4, sin_four_pi_div_three]
    exact pyround5_eq_target _ _ (-433013) (by norm_num)
      (by nlinarith [sqrt3_lt]) (by nlinarith [sqrt3_gt])
  · rw [e4, cos_four_pi_div_three]
    exact pyround5_eq_target _ _ (-250000) (by norm_num) (by norm_num)
      (by norm_num)
  · rw [e5, sin_five_pi_div_three]
    exact pyround5_eq_target _ _ (-433013) (by norm_num)
      (by nlinarith [sqrt3_lt]) (by nlinarith [sqrt3_gt])
  · rw [e5, cos_five_pi_div_three]
    exact pyround5_eq_target _ _ 250000 (by norm_num) (by norm_num) (by norm_num)

theorem hexEps_lo : (0.0000023333 : ℝ) < 1309 / 1250 - Real.pi / 3 := by
  linarith [Real.pi_lt_d6]

theorem hexEps_hi : 1309 / 1250 - Real.pi / 3 < 0.0000026667 := by
  linarith [Real.pi_gt_d6]

theorem hexEps_pos : (0 : ℝ) < 1309 / 1250 - Real.pi / 3 :=
  lt_trans (by norm_num) hexEps_lo

theorem hexSinEps_lo : (0.0000023332 : ℝ) < Real.sin (1309 / 1250 - Real.pi / 3) := by
  have h0 := hexEps_pos
  have h1 : (1309 / 1250 - Real.pi / 3 : ℝ) ≤ 1 := by linarith [hexEps_hi]
  have h2 := Real.sin_gt_sub_cube h0 h1
  have h3 : (1309 / 1250 - Real.pi / 3 : ℝ) ^ 3 ≤ (0.0000026667 : ℝ) ^ 3 :=
    pow_le_pow_left₀ h0.le hexEps_hi.le 3
  nlinarith [hexEps_lo]

theorem hexSinEps_hi : Real.sin (1309 / 1250 - Real.pi / 3) < 0.0000026667 :=
  lt_trans (Real.sin_lt hexEps_pos) hexEps_hi

theorem hexSinEps_pos : (0 : ℝ) < Real.sin (1309 / 1250 - Real.pi / 3) :=
  lt_trans (by norm_num) hexSinEps_lo

theorem hexCosEps_lo : (0.9999999999 : ℝ) < Real.cos (1309 / 1250 - Real.pi / 3) := by
  have h := Real.one_sub_sq_div_two_le_cos (x := 1309 / 1250 - Real.pi / 3)
  have h2 : (1309 / 1250 - Real.pi / 3 : ℝ) ^ 2 ≤ (0.0000026667 : ℝ) ^ 2 :=
    pow_le_pow_left₀ hexEps_pos.le hexEps_hi.le 2
  nlinarith

theorem hexCosEps_hi : Real.cos (1309 / 1250 - Real.pi / 3) ≤ 1 :=
  Real.cos_le_one _

/-- The rounded corner vertices of the hexagram rotated by one corner spacing
(`first_corner_slope` stored as `1.0472`), as exact rationals. -/
def hexCv2Q : List (Point ℚ) :=
  [⟨433013 / 100000, 249999 / 100000⟩, ⟨433012 / 100000, -(250001 / 100000)⟩,
   ⟨-(1 / 100000), -5⟩, ⟨-(433013 / 100000), -(249999 / 100000)⟩,
   ⟨-(433012 / 100000), 250001 / 100000⟩, ⟨1 / 100000, 5⟩]

theorem hexCv2_eq :
    starCornerVertices Real.sin Real.cos ⟨0, 0⟩ ((10 : ℝ) / 2) (104720 / 100000)
      (2 * Real.pi / 6) 6 = hexCv2Q.map pointCast := by
  unfold starCornerVertices hexCv2Q
  rw [show List.range 6 = [0, 1, 2, 3, 4, 5] from rfl]
  simp only [List.map_cons, List.map_nil, List.cons.injEq, and_true]
  norm_num [pointCast, mkPoint, Point.mk.injEq]
  have g0 : (1309 / 1250 : ℝ)
      = Real.pi / 3 + (1309 / 1250 - Real.pi / 3) := by ring
  have g1 : (2 * Real.pi / 6 + 1309 / 1250 : ℝ)
      = 2 * Real.pi / 3 + (1309 / 1250 - Real.pi / 3) := by ring
  have g2 : (2 * Real.pi / 6 * 2 + 1309 / 1250 : ℝ)
      = Real.pi + (1309 / 1250 - Real.pi / 3) := by ring
  have g3 : (2 * Real.pi / 6 * 3 + 1309 / 1250 : ℝ)
      = 4 * Real.pi / 3 + (1309 / 1250 - Real.pi / 3) := by ring
  have g4 : (2 * Real.pi / 6 * 4 + 1309 / 1250 : ℝ)
      = 5 * Real.pi / 3 + (1309 / 1250 - Real.pi / 3) := by ring
  have g5 : (2 * Real.pi / 6 * 5 + 1309 / 1250 : ℝ)
      = (1309 / 1250 - Real.pi / 3) + 2 * Real.pi := by ring
  refine ⟨⟨?_, ?_⟩, ⟨?_, ?_⟩, ⟨?_, ?_⟩, ⟨?_, ?_⟩, ⟨?_, ?_⟩, ?_, ?_⟩
  · rw [g0, Real.sin_add, Real.sin_pi_div_three, Real.cos_pi_div_three]
    exact pyround5_eq_target _ _ 433013 (by norm_num)
      (by nlinarith [sqrt3_gt, hexSinEps_lo, hexCosEps_lo, hexCosEps_hi,
        Real.sqrt_nonneg 3])
      (by nlinarith [sqrt3_lt, sqrt3_gt, hexSinEps_hi, hexSinEps_pos,
        hexCosEps_lo, hexCosEps_hi, Real.sqrt_nonneg 3])
  · rw [g0, Real.cos_add, Real.sin_pi_div_three, Real.cos_pi_div_three]
    exact pyround5_eq_target _ _ 249999 (by norm_num)
      (by nlinarith [sqrt3_lt, sqrt3_gt, hexSinEps_hi, hexSinEps_pos,
        hexCosEps_lo, hexCosEps_hi, Real.sqrt_nonneg 3])
      (by nlinarith [sqrt3_gt, hexSinEps_lo, hexCosEps_lo, hexCosEps_hi,
        Real.sqrt_nonneg 3])
  · rw [g1, Real.sin_add, sin_two_pi_div_three, cos_two_pi_div_three]
    exact pyround5_eq_target _ _ 433012 (by norm_num)
      (by nlinarith [sqrt3_gt, hexSinEps_hi, hexCosEps_lo, hexCosEps_hi,
        Real.sqrt_nonneg 3])
      (by nlinarith [sqrt3_lt, sqrt3_gt, hexSinEps_lo, hexSinEps_pos,
        hexCosEps_lo, hexCosEps_hi, Real.sqrt_nonneg 3])
  · rw [g1, Real.cos_add, sin_two_pi_div_three, cos_two_pi_div_three]
    exact pyround5_eq_target _ _ (-250001) (by norm_num)
      (by nlinarith [sqrt3_lt, sqrt3_gt, hexSinEps_hi, hexSinEps_pos,
        hexCosEps_lo, hexCosEps_hi, Real.sqrt_nonneg 3])
      (by nlinarith [sqrt3_gt, hexSinEps_lo, hexCosEps_lo, hexCosEps_hi,
        Real.sqrt_nonneg 3])
  · rw [g2, Real.sin_add, Real.sin_pi, Real.cos_pi]
    exact pyround5_eq_target _ _ (-1) (by norm_num)
      (by nlinarith [hexSinEps_hi, hexCosEps_lo, hexCosEps_hi])
      (by nlinarith [hexSinEps_lo, hexCosEps_lo, hexCosEps_hi])
  · rw [g2, Real.cos_add, Real.sin_pi, Real.cos_pi]
    exact pyround5_eq_target _ _ (-500000) (by norm_num)
      (by nlinarith [hexSinEps_lo, hexSinEps_hi, hexCosEps_hi])
      (by nlinarith [hexSinEps_lo, hexSinEps_hi, hexCosEps_lo])
  · rw [g3, Real.sin_add, sin_four_pi_div_three, cos_four_pi_div_three]
    exact pyround5_eq_target _ _ (-433013) (by norm_num)
      (by nlinarith [sqrt3_lt, sqrt3_gt, hexSinEps_hi, hexSinEps_pos,
        hexCosEps_lo, hexCosEps_hi, Real.sqrt_nonneg 3])
      (by nlinarith [sqrt3_gt, hexSinEps_lo, hexCosEps_lo, hexCosEps_hi,
        Real.sqrt_nonneg 3])
  · rw [g3, Real.cos_add, sin_four_pi_div_three, cos_four_pi_div_three]
    exact pyround5_eq_target _ _ (-249999) (by norm_num)
      (by nlinarith [sqrt3_gt, hexSinEps_lo, hexCosEps_lo, hexCosEps_hi,
        Real.sqrt_nonneg 3])
      (by nlinarith [sqrt3_lt, sqrt3_gt, hexSinEps_hi, hexSinEps_pos,
        hexCosEps_lo, hexCosEps_hi, Real.sqrt_nonneg 3])
  · rw [g4, Real.sin_add, sin_five_pi_div_three, cos_five_pi_div_three]
    exact pyround5_eq_target _ _ (-433012) (by norm_num)
      (by nlinarith [sqrt3_lt, sqrt3_gt, hexSinEps_lo, hexSinEps_pos,
        hexCosEps_lo, hexCosEps_hi, Real.sqrt_nonneg 3])
      (by nlinarith [sqrt3_gt, hexSinEps_hi, hexCosEps_lo, hexCosEps_hi,
        Real.sqrt_nonneg 3])
  · rw [g4, Real.cos_add, sin_five_pi_div_three, cos_five_pi_div_three]
    exact pyround5_eq_target _ _ 250001 (by norm_num)
      (by nlinarith [sqrt3_gt, hexSinEps_lo, hexCosEps_lo, hexCosEps_hi,
        Real.sqrt_nonneg 3])
      (by nlinarith [sqrt3_lt, sqrt3_gt, hexSinEps_hi, hexSinEps_pos,
        hexCosEps_lo, hexCosEps_hi, Real.sqrt_nonneg 3])
  · rw [g5, Real.sin_add_two_pi]
    exact pyround5_eq_target _ _ 1 (by norm_num)
      (by nlinarith [hexSinEps_lo, hexCosEps_lo, hexCosEps_hi])
      (by nlinarith [hexSinEps_hi, hexCosEps_lo, hexCosEps_hi])
  · rw [g5, Real.cos_add_two_pi]
    exact pyround5_eq_target _ _ 500000 (by norm_num)
      (by nlinarith [hexSinEps_lo, hexSinEps_hi, hexCosEps_lo])
      (by nlinarith [hexSinEps_lo, hexSinEps_hi, hexCosEps_hi])

/-- The inner vertices of the first hexagram, computed exactly on rationals. -/
def hexIv1Q : List (Point ℚ) :=
  ((starInners (starChords hexCv1Q 6 2) 6 2).toOption).getD []

/-- The inner vertices of the rotated hexagram, computed exactly on rationals. -/
def hexIv2Q : List (Point ℚ) :=
  ((starInners (starChords hexCv2Q 6 2) 6 2).toOption).getD []

theorem hexInners1 : starInners (starChords hexCv1Q 6 2) 6 2 = .ok hexIv1Q := by
  with_unfolding_all rfl

theorem hexInners2 : starInners (starChords hexCv2Q 6 2) 6 2 = .ok hexIv2Q := by
  with_unfolding_all rfl

theorem hexIv1Q_length : hexIv1Q.length = 6 := by
  have h := exceptMap_ok_length _ _ _ hexInners1
  rwa [List.length_range] at h

theorem hexIv2Q_length : hexIv2Q.length = 6 := by
  have h := exceptMap_ok_length _ _ _ hexInners2
  rwa [List.length_range] at h

/-- The first hexagram star value. -/
noncomputable def hexStar1 : Star ℝ :=
  ⟨⟨0, 0⟩, 10, 0, (interleave hexCv1Q hexIv1Q).map pointCast⟩

/-- The rotated hexagram star value. -/
noncomputable def hexStar2 : Star ℝ :=
  ⟨⟨0, 0⟩, 10, 104720 / 100000, (interleave hexCv2Q hexIv2Q).map pointCast⟩

theorem pyround5_ten : pyround 5 (10 : ℝ) = 10 :=
  pyround5_eq_target _ _ 1000000 (by norm_num) (by norm_num) (by norm_num)

theorem pyround5_zero : pyround 5 (0 : ℝ) = 0 :=
  pyround5_eq_target _ _ 0 (by norm_num) (by norm_num) (by norm_num)

theorem pyround5_hexangle : pyround 5 (2 * Real.pi / 6 : ℝ) = 104720 / 100000 :=
  pyround5_eq_target _ _ 104720 (by norm_num)
    (by nlinarith [Real.pi_gt_d6]) (by nlinarith [Real.pi_lt_d6])

/-- The first hexagram: full evaluation of `Star.__init__` over the reals. -/
theorem hexStar1_eq :
    mkStar Real.sin Real.cos Real.pi ⟨0, 0⟩ 10 0 6 2 5 = .ok hexStar1 := by
  unfold mkStar
  rw [if_pos (by norm_num : 4 < 6)]
  rw [if_pos (⟨le_refl (0 : ℝ), by positivity⟩ :
    (0 : ℝ) ≤ 0 ∧ (0 : ℝ) ≤ 2 * Real.pi)]
  dsimp only
  rw [show (((6 : ℕ) : ℝ)) = 6 by norm_num]
  rw [pyround5_ten, pyround5_zero, hexCv1_eq]
  rw [starChords_ratCast, starInners_ratCast, hexInners1]
  show Except.ok _ = _
  rw [interleave_map]
  rfl

/-- The rotated hexagram: full evaluation of `Star.__init__` over the reals. -/
theorem hexStar2_eq :
    mkStar Real.sin Real.cos Real.pi ⟨0, 0⟩ 10 (0 + 2 * Real.pi / ((6 : ℕ) : ℝ))
      6 2 5 = .ok hexStar2 := by
  unfold mkStar
  rw [if_pos (by norm_num : 4 < 6)]
  rw [if_pos (⟨by positivity, by nlinarith [Real.pi_pos]⟩ :
    (0 : ℝ) ≤ 0 + 2 * Real.pi / ((6 : ℕ) : ℝ) ∧
      (0 : ℝ) + 2 * Real.pi / ((6 : ℕ) : ℝ) ≤ 2 * Real.pi)]
  dsimp only
  rw [show (((6 : ℕ) : ℝ)) = 6 by norm_num]
  rw [show ((0 : ℝ) + 2 * Real.pi / 6) = 2 * Real.pi / 6 by ring]
  rw [pyround5_ten, pyround5_hexangle, hexCv2_eq]
  rw [starChords_ratCast, starInners_ratCast, hexInners2]
  show Except.ok _ = _
  rw [interleave_map]
  rfl

theorem hexStar1_vertex2 :
    hexStar1.vertices.getD 2 ⟨0, 0⟩ = pointCast ⟨433013 / 100000, 5 / 2⟩ := by
  show ((interleave hexCv1Q hexIv1Q).map pointCast).getD 2 ⟨0, 0⟩ = _
  rw [getD_map_pointCast]
  rw [show (2 : ℕ) = 2 * 1 from rfl,
    interleave_getD_even _ _ _ _ (by rw [hexIv1Q_length]; rfl)
      (by rw [show hexCv1Q.length = 6 from rfl]; norm_num)]
  rfl

theorem hexStar1_vertex0 :
    hexStar1.vertices.getD 0 ⟨0, 0⟩ = pointCast ⟨0, 5⟩ := by
  show ((interleave hexCv1Q hexIv1Q).map pointCast).getD 0 ⟨0, 0⟩ = _
  rw [getD_map_pointCast]
  rw [show (0 : ℕ) = 2 * 0 from rfl,
    interleave_getD_even _ _ _ _ (by rw [hexIv1Q_length]; rfl)
      (by rw [show hexCv1Q.length = 6 from rfl]; norm_num)]
  rfl

theorem hexStar2_vertex0 :
    hexStar2.vertices.getD 0 ⟨0, 0⟩
      = pointCast ⟨433013 / 100000, 249999 / 100000⟩ := by
  show ((interleave hexCv2Q hexIv2Q).map pointCast).getD 0 ⟨0, 0⟩ = _
  rw [getD_map_pointCast]
  rw [show (0 : ℕ) = 2 * 0 from rfl,
    interleave_getD_even _ _ _ _ (by rw [hexIv2Q_length]; rfl)
      (by rw [show hexCv2Q.length = 6 from rfl]; norm_num)]
  rfl

theorem hexStar2_vertex2 :
    hexStar2.vertices.getD 2 ⟨0, 0⟩
      = pointCast ⟨433012 / 100000, -(250001 / 100000)⟩ := by
  show ((interleave hexCv2Q hexIv2Q).map pointCast).getD 2 ⟨0, 0⟩ = _
  rw [getD_map_pointCast]
  rw [show (2 : ℕ) = 2 * 1 from rfl,
    interleave_getD_even _ _ _ _ (by rw [hexIv2Q_length]; rfl)
      (by rw [show hexCv2Q.length = 6 from rfl]; norm_num)]
  rfl

/-- Counterexample to claim C9 as stated: with `center = (0,0)`,
`outer_diameter = 10`, `angle = 0`, `corners = 6`, both stars construct, yet
vertex `k = 0` of the first star and vertex `(k + 2) mod 12` of the rotated
star lie more than `4` apart in the x-coordinate — far beyond any rounding
tolerance.  (The true relation shifts the OTHER way; see the amended claim.) -/
theorem star_rotation_claim_counterexample :
    (mkStar Real.sin Real.cos Real.pi ⟨0, 0⟩ 10 0 6 2 5 = .ok hexStar1) ∧
    (mkStar Real.sin Real.cos Real.pi ⟨0, 0⟩ 10
      (0 + 2 * Real.pi / ((6 : ℕ) : ℝ)) 6 2 5 = .ok hexStar2) ∧
    4 ≤ |(hexStar1.vertices.getD 0 ⟨0, 0⟩).x -
          (hexStar2.vertices.getD ((0 + 2) % (2 * 6)) ⟨0, 0⟩).x| := by
  refine ⟨hexStar1_eq, hexStar2_eq, ?_⟩
  rw [show ((0 + 2) % (2 * 6) : ℕ) = 2 from rfl]
  rw [hexStar1_vertex0, hexStar2_vertex2]
  simp only [pointCast]
  push_cast
  rw [show ((0 : ℝ) - 433012 / 100000) = -(433012 / 100000) by ring, abs_neg]
  rw [abs_of_pos (by norm_num)]
  norm_num

/-- Witness for the amended claim C9 at the hexagram pair, outer vertex
index `2 * 0`. -/
theorem star_rotation_shifted_witness :
    (mkStar Real.sin Real.cos Real.pi ⟨0, 0⟩ 10 0 6 2 5 = .ok hexStar1) ∧
    (mkStar Real.sin Real.cos Real.pi ⟨0, 0⟩ 10
      (0 + 2 * Real.pi / ((6 : ℕ) : ℝ)) 6 2 5 = .ok hexStar2) ∧
    (0 : ℕ) < 6 ∧
    |(hexStar2.vertices.getD (2 * 0) ⟨0, 0⟩).x -
        (hexStar1.vertices.getD ((2 * 0 + 2) % (2 * 6)) ⟨0, 0⟩).x| ≤
      (1 + |pyround 5 (10 : ℝ)| / 2) / 100000 ∧
    |(hexStar2.vertices.getD (2 * 0) ⟨0, 0⟩).y -
        (hexStar1.vertices.getD ((2 * 0 + 2) % (2 * 6)) ⟨0, 0⟩).y| ≤
      (1 + |pyround 5 (10 : ℝ)| / 2) / 100000 := by
  have h := star_rotation_shifted hexStar1_eq hexStar2_eq 0 (by norm_num)
  exact ⟨hexStar1_eq, hexStar2_eq, by norm_num, h.1, h.2⟩

end EightStars
